import Mathlib

/-!
A verification development for the documentation-comment-to-HTML rendering
pipeline of `deno_doc` (`src/html/jsdoc.rs` and `src/html/symbols/variable.rs`).

The Rust code is shallowly embedded: pure functions become Lean functions,
the mutable comrak tree becomes a purely functional tree, the thread-local
cells bracketing the sanitizer call become explicit state passing, and the
external collaborators (the comrak parser and HTML serializer, the ammonia
sanitizer, the href resolver capabilities, the svg icon assets) become
function parameters.  Machine strings are modelled as Lean `String`s: all
the code's string work is textual, no arithmetic overflow is involved.

Note on `\s` / `\S`: the Rust regexes use Unicode whitespace classes; the
embedding uses `Char.isWhitespace` (space, tab, CR, LF), which agrees on all
ASCII input, the domain of every claim.
-/

/-! ## Documentation graph data model (`ShortPath`, `DocNode`, `RenderContext`) -/

/-- `crate::html::ShortPath`: a module identifier.  `display_name` is the
method of the same name, modelled as a field since its computation lives
outside the given sources. -/
structure ShortPath where
  path : String
  display_name : String
  is_main : Bool
deriving DecidableEq

/-- `crate::html::UrlResolveKind`: a render position. -/
inductive UrlResolveKind where
  | root
  | allSymbols
  | file (f : ShortPath)
  | symbol (file : ShortPath) (symbol : String)
deriving DecidableEq

/-- Modelled from the spec: `ShortPath::as_resolve_kind` is not among the
given sources.  Per the spec (§4.1), a module reference without a symbol
"resolves to the module's own page", i.e. the render position anchored to
that module. -/
def ShortPath.as_resolve_kind (sp : ShortPath) : UrlResolveKind :=
  .file sp

/-- Modelled from the spec: `UrlResolveKind::get_file` is not among the given
sources.  Per the spec (§3), a render position is "either anchored to a
specific symbol within a specific module, to a whole module, or to an
aggregate all-symbols view"; the first two carry that module, the aggregate
views carry none. -/
def UrlResolveKind.getFile : UrlResolveKind → Option ShortPath
  | .file f => some f
  | .symbol f _ => some f
  | _ => none

/-- The type rendered by `render_type_def` (opaque to this file). -/
structure TsType where
  repr : String
deriving DecidableEq

/-- `crate::variable::VariableDef`, restricted to the field the code reads. -/
structure VariableDef where
  ts_type : Option TsType
deriving DecidableEq

/-- `crate::DocNode`, restricted to the fields the code reads.
`qualified_name` stands for the `get_qualified_name()` method, whose
computation lives outside the given sources. -/
structure DocNode where
  name : String
  qualified_name : String
  variable_def : Option VariableDef
deriving DecidableEq

/-- The slice of `RenderContext`/`GenerateCtx` that `parse_links` consumes:
the documentation graph (`ctx.ctx.doc_nodes`, an insertion-ordered map,
modelled as an ordered association list), the current render position
(`get_current_resolve()`), and the three external capabilities
(`resolve_path`, `lookup_symbol_href`, `resolve_external_jsdoc_module`). -/
structure RenderCtx where
  doc_nodes : List (ShortPath × List DocNode)
  current_resolve : UrlResolveKind
  resolve_path : UrlResolveKind → UrlResolveKind → String
  lookup_symbol_href : String → Option String
  resolve_external_jsdoc_module : String → Option String → Option (String × String)

/-! ## String helpers shared by the regex translations -/

/-- `str::split_once` on a separator character, over a char list:
split at the first occurrence, dropping the separator. -/
def splitOnceCs (sep : Char) : List Char → Option (List Char × List Char)
  | [] => none
  | x :: xs =>
    if x = sep then some ([], xs)
    else (splitOnceCs sep xs).map (fun p => (x :: p.1, p.2))

/-- `str::split_once` on Lean strings. -/
def splitOnce (s : String) (sep : Char) : Option (String × String) :=
  (splitOnceCs sep s.toList).map (fun p => (p.1.asString, p.2.asString))

/-- Strip a literal prefix from a char list, returning the remainder. -/
def dropPfx : List Char → List Char → Option (List Char)
  | [], cs => some cs
  | _ :: _, [] => none
  | p :: ps, c :: cs => if c = p then dropPfx ps cs else none

/-- Index of the first occurrence of a character. -/
def firstIdxOf (c : Char) : List Char → Option Nat
  | [] => none
  | x :: xs => if x = c then some 0 else (firstIdxOf c xs).map Nat.succ

/-- Index of the first occurrence of a (nonempty, in all uses) pattern,
as in `str::find` on a literal pattern. -/
def isPfx : List Char → List Char → Bool
  | [], _ => true
  | _ :: _, [] => false
  | p :: ps, c :: cs => p == c && isPfx ps cs

def firstSubIdx (pat : List Char) : List Char → Option Nat
  | [] => if pat.isEmpty then some 0 else none
  | c :: cs => if isPfx pat (c :: cs) then some 0 else (firstSubIdx pat cs).map Nat.succ

/-- `str::ends_with` on Lean strings, over the char lists.  (Implemented on
lists so that it evaluates by kernel reduction.) -/
def strEndsWith (s suffix : String) : Bool :=
  isPfx suffix.toList.reverse s.toList.reverse

/-! ## `LINK_RE`: `(^\.{0,2}\/)|(^[A-Za-z]+:\S)` -/

/-- The `^\.{0,2}\/` alternative: the string starts with `/`, `./` or `../`. -/
def startsDotSlash : List Char → Bool
  | [] => false
  | [a] => a == '/'
  | [a, b] => a == '/' || (a == '.' && b == '/')
  | a :: b :: c :: _ =>
    a == '/' || (a == '.' && b == '/') || (a == '.' && b == '.' && c == '/')

/-- After at least one leading ASCII letter: accept `letters* ':' non-space`.
(The greedy `[A-Za-z]+` needs no backtracking search: letters are never `:`,
so only the maximal letter run can be followed by the colon.) -/
def schemeTail : List Char → Bool
  | [] => false
  | [_] => false
  | a :: b :: rest =>
    if a = ':' then !b.isWhitespace else a.isAlpha && schemeTail (b :: rest)

/-- The `^[A-Za-z]+:\S` alternative. -/
def schemeMatch : List Char → Bool
  | c :: rest => c.isAlpha && schemeTail rest
  | [] => false

/-- `LINK_RE.is_match`: the "linkable" classification of a resolved link. -/
def linkReMatch (s : String) : Bool :=
  startsDotSlash s.toList || schemeMatch s.toList

/-- The classification exactly as the claim words it: the string starts with
`/`, `./`, `../`, or a scheme prefix of one or more ASCII letters followed
by `:` and a non-space character. -/
def LinkableSpec (s : String) : Prop :=
  (∃ t, s.toList = '/' :: t) ∨
  (∃ t, s.toList = '.' :: '/' :: t) ∨
  (∃ t, s.toList = '.' :: '.' :: '/' :: t) ∨
  (∃ pre d post, pre ≠ [] ∧ (∀ c ∈ pre, c.isAlpha = true) ∧
    d.isWhitespace = false ∧ s.toList = pre ++ ':' :: d :: post)

/-! ## `MODULE_LINK_RE`: `^\[(\S+)\](?:\.(\S+)|\s|)$` -/

/-- All decompositions of a char list around one occurrence of `sep`,
ordered by increasing length of the first component. -/
def splitsAt (sep : Char) : List Char → List (List Char × List Char)
  | [] => []
  | x :: xs =>
    let tailSplits := (splitsAt sep xs).map (fun p => (x :: p.1, p.2))
    if x = sep then ([], xs) :: tailSplits else tailSplits

/-- The `(?:\.(\S+)|\s|)$` tail of `MODULE_LINK_RE`: nothing, a single
whitespace character, or a dot followed by a nonempty all-non-whitespace
symbol name running to the end. -/
def moduleTailMatch : List Char → Option (Option String)
  | [] => some none
  | [c] => if c = '.' then none else if c.isWhitespace then some none else none
  | a :: b :: rest =>
    if a = '.' then
      if (b :: rest).all (fun c => !c.isWhitespace) then some (some (b :: rest).asString)
      else none
    else none

/-- `MODULE_LINK_RE.captures`: `[` then a greedy nonempty non-whitespace
module name up to a `]`, then the optional `.symbol` tail.  The regex
engine resolves the greedy `\S+` by preferring the longest module name for
which the rest still matches, hence the reversed (longest-first) split
order. -/
def moduleLinkMatch (link : String) : Option (String × Option String) :=
  match link.toList with
  | '[' :: rest =>
    ((splitsAt ']' rest).reverse).findSome? (fun p =>
      if !p.1.isEmpty && p.1.all (fun c => !c.isWhitespace) then
        match moduleTailMatch p.2 with
        | some symOpt => some (p.1.asString, symOpt)
        | none => none
      else none)
  | _ => none

/-! ## `parse_links` (src/html/jsdoc.rs:100-207) -/

/-- `str::trim`, over the char list: drop leading and trailing whitespace.
(Implemented on lists so that it evaluates by kernel reduction.) -/
def trimCs (l : List Char) : List Char :=
  ((l.dropWhile Char.isWhitespace).reverse.dropWhile Char.isWhitespace).reverse

/-- `str::trim` on Lean strings. -/
def strTrim (s : String) : String :=
  (trimCs s.toList).asString

/-- The target split (src/html/jsdoc.rs:108-114): split at the first `|`,
else at the first space, trimming both halves; no separator means no
explicit title. -/
def splitTarget (value : String) : String × String :=
  match splitOnce value '|' with
  | some (l, t) => (strTrim l, strTrim t)
  | none =>
    match splitOnce value ' ' with
    | some (l, t) => (strTrim l, strTrim t)
    | none => (value, "")

/-- The module-reference resolution step (src/html/jsdoc.rs:116-172). -/
def resolveModuleLink (ctx : RenderCtx) (link0 title0 : String) : String × String :=
  match moduleLinkMatch link0 with
  | none => (link0, title0)
  | some (moduleLink, symbolOpt) =>
    match ctx.doc_nodes.find? (fun p =>
        p.1.path == moduleLink || p.1.display_name == moduleLink) with
    | some (shortPath, nodes) =>
      match symbolOpt with
      | some sym =>
        if nodes.any (fun n => n.qualified_name == sym) then
          (ctx.resolve_path ctx.current_resolve (.symbol shortPath sym),
           if title0.isEmpty then shortPath.display_name ++ " " ++ sym else title0)
        else (link0, title0)
      | none =>
        (ctx.resolve_path ctx.current_resolve shortPath.as_resolve_kind,
         if title0.isEmpty then shortPath.display_name else title0)
    | none =>
      match ctx.resolve_external_jsdoc_module moduleLink symbolOpt with
      | some pr => (pr.1, pr.2)
      | none => (link0, title0)

/-- The generic symbol-href lookup step (src/html/jsdoc.rs:174-190),
returning `(title, link)`. -/
def symbolHrefStep (ctx : RenderCtx) (link1 title1 : String) : String × String :=
  match ctx.lookup_symbol_href link1 with
  | some href => ((if title1.isEmpty then link1 else title1), href)
  | none => ((if title1.isEmpty then link1 else title1), link1)

/-- The fully resolved `(title, link)` pair for one matched occurrence. -/
def resolvedTitleLink (ctx : RenderCtx) (value : String) : String × String :=
  let lt := splitTarget value
  let lt1 := resolveModuleLink ctx lt.1 lt.2
  symbolHrefStep ctx lt1.1 lt1.2

/-- The replacement emitted for one matched `@link`/`@linkcode` occurrence
(the closure body of `JSDOC_LINK_RE.replace_all`, src/html/jsdoc.rs:101-206). -/
def jsdocLinkReplacement (ctx : RenderCtx) (code : Bool) (value : String) : String :=
  let tl := resolvedTitleLink ctx value
  if linkReMatch tl.2 then
    if code then "[`" ++ tl.1 ++ "`](" ++ tl.2 ++ ")"
    else "[" ++ tl.1 ++ "](" ++ tl.2 ++ ")"
  else
    if code then "`" ++ tl.1 ++ "`"
    else tl.1

/-- Matching `JSDOC_LINK_RE` = `\{\s*@link(code|plain)?\s+([^}]+)}` right
after an opening brace: skip whitespace, the literal `@link`, the optional
modifier, then at least one whitespace character and a nonempty brace-free
value running to the closing brace.  When the whitespace run extends to the
closing brace, the regex engine backtracks one whitespace character into
the value, which the `some 0` case reproduces. -/
def tryMatchLink (cs : List Char) : Option (Bool × String × List Char) :=
  match dropPfx ['@', 'l', 'i', 'n', 'k'] (cs.dropWhile Char.isWhitespace) with
  | none => none
  | some cs2 =>
    let modSplit : Bool × List Char :=
      match dropPfx ['c', 'o', 'd', 'e'] cs2 with
      | some r => (true, r)
      | none =>
        match dropPfx ['p', 'l', 'a', 'i', 'n'] cs2 with
        | some r => (false, r)
        | none => (false, cs2)
    let ws := modSplit.2.takeWhile Char.isWhitespace
    if ws.length = 0 then none
    else
      let afterWs := modSplit.2.drop ws.length
      match firstIdxOf '\x7d' afterWs with
      | none => none
      | some 0 =>
        if 2 ≤ ws.length then
          some (modSplit.1, (ws.drop (ws.length - 1)).asString, afterWs.drop 1)
        else none
      | some (q + 1) =>
        some (modSplit.1, (afterWs.take (q + 1)).asString, afterWs.drop (q + 2))

/-- The `replace_all` scan: at each position, a match can only begin at an
opening brace; a match is replaced by the closure's output and scanning
resumes after the closing brace.  The fuel is the input length; every step
consumes at least one input character, so it never runs out when started
with the full length. -/
def parseLinksAux (ctx : RenderCtx) : Nat → List Char → List Char
  | 0, cs => cs
  | _ + 1, [] => []
  | fuel + 1, c :: rest =>
    if c = '\x7b' then
      match tryMatchLink rest with
      | some (code, value, rest') =>
        (jsdocLinkReplacement ctx code value).toList ++ parseLinksAux ctx fuel rest'
      | none => c :: parseLinksAux ctx fuel rest
    else c :: parseLinksAux ctx fuel rest

/-- `parse_links` (src/html/jsdoc.rs:100): resolve every `{@link ...}` /
`{@linkcode ...}` occurrence in the raw markdown text. -/
def parse_links (md : String) (ctx : RenderCtx) : String :=
  (parseLinksAux ctx md.toList.length md.toList).asString

/-! ## `split_markdown_title` (src/html/jsdoc.rs:209-220) -/

/-- `split_markdown_title`: split at the minimum of the first `\n\n`, the
first ``` ``` ``` and the length (the `usize::MAX` sentinel of the source
collapses to the length after the final `min`). -/
def split_markdown_title (md : String) : Option String × Option String :=
  let newline := (firstSubIdx "\n\n".toList md.toList).getD md.toList.length
  let codeblock := (firstSubIdx "```".toList md.toList).getD md.toList.length
  let index := min (min newline codeblock) md.toList.length
  let before := (md.toList.take index).asString
  let after := (md.toList.drop index).asString
  if before.isEmpty then (none, some after)
  else if after.isEmpty then (none, some before)
  else (some before, some after)

/-- The split point as the claim words it: the earlier of the first blank
line and the first fenced-code-block marker. -/
def specSplitIdx (md : String) : Nat :=
  min ((firstSubIdx "\n\n".toList md.toList).getD md.toList.length)
      ((firstSubIdx "```".toList md.toList).getD md.toList.length)

/-- The split exactly as claim C8 words it: the text before the split point
is the title (`none` when empty) and the text from the split point on is
the body. -/
def specClaimSplit (md : String) : Option String × Option String :=
  let i := min (specSplitIdx md) md.toList.length
  let before := (md.toList.take i).asString
  ((if before.isEmpty then none else some before), some ((md.toList.drop i).asString))

/-! ## The comrak tree, shallowly embedded -/

/-- `comrak::nodes::NodeValue`, restricted to the payloads the code reads
(literals and link urls); source positions are dropped. -/
inductive NodeValue where
  | document
  | blockQuote
  | list
  | item
  | codeBlock (literal : String)
  | htmlBlock (blockType : Nat) (literal : String)
  | paragraph
  | heading (level : Nat)
  | thematicBreak
  | table
  | tableRow
  | tableCell
  | text (literal : String)
  | taskItem
  | softBreak
  | lineBreak
  | code (literal : String)
  | htmlInline (literal : String)
  | emph
  | strong
  | strikethrough
  | superscript
  | link (url : String) (title : String)
  | image (url : String) (title : String)
  | math (literal : String)
  | escaped
  | wikiLink (url : String)
  | underline
deriving DecidableEq

/-- The bare node kind, used to state the title extractor's allow-list. -/
inductive NodeKind where
  | document | blockQuote | list | item | codeBlock | htmlBlock | paragraph
  | heading | thematicBreak | table | tableRow | tableCell | text | taskItem
  | softBreak | lineBreak | code | htmlInline | emph | strong | strikethrough
  | superscript | link | image | math | escaped | wikiLink | underline
deriving DecidableEq

def NodeValue.kind : NodeValue → NodeKind
  | .document => .document
  | .blockQuote => .blockQuote
  | .list => .list
  | .item => .item
  | .codeBlock _ => .codeBlock
  | .htmlBlock _ _ => .htmlBlock
  | .paragraph => .paragraph
  | .heading _ => .heading
  | .thematicBreak => .thematicBreak
  | .table => .table
  | .tableRow => .tableRow
  | .tableCell => .tableCell
  | .text _ => .text
  | .taskItem => .taskItem
  | .softBreak => .softBreak
  | .lineBreak => .lineBreak
  | .code _ => .code
  | .htmlInline _ => .htmlInline
  | .emph => .emph
  | .strong => .strong
  | .strikethrough => .strikethrough
  | .superscript => .superscript
  | .link _ _ => .link
  | .image _ _ => .image
  | .math _ => .math
  | .escaped => .escaped
  | .wikiLink _ => .wikiLink
  | .underline => .underline

/-! An `AstNode` of the mutable comrak tree, purely: a value and an ordered
child list.  (Mutual with its child list so every traversal is structural
and kernel-computable.) -/
mutual
inductive Node : Type where
  | mk : NodeValue → NodeList → Node
inductive NodeList : Type where
  | nil : NodeList
  | cons : Node → NodeList → NodeList
end

def Node.value : Node → NodeValue
  | .mk v _ => v

def Node.children : Node → NodeList
  | .mk _ cs => cs

/-- `first_child()`. -/
def NodeList.head? : NodeList → Option Node
  | .nil => none
  | .cons c _ => some c

/-- `children().skip(1)`. -/
def NodeList.tail : NodeList → NodeList
  | .nil => .nil
  | .cons _ cs => cs

def NodeList.append : NodeList → NodeList → NodeList
  | .nil, l => l
  | .cons c cs, l => .cons c (cs.append l)

/-! ## Tree rewriter (`match_node_value` / `walk_node`, src/html/jsdoc.rs:249-389) -/

/-- The five alert callout kinds (src/html/jsdoc.rs:241-247). -/
inductive Alert where
  | note | tip | important | warning | caution
deriving DecidableEq

/-- The class-name fragment of each alert kind (src/html/jsdoc.rs:336-342). -/
def alertKindSlug : Alert → String
  | .note => "note"
  | .tip => "tip"
  | .important => "important"
  | .warning => "warning"
  | .caution => "caution"

/-- The alert-marker scan over the first text run (src/html/jsdoc.rs:260-287):
split at the first space into a marker candidate and an optional custom
title, then require an exact, case-sensitive marker match; a missing custom
title falls back to the kind's default. -/
def alertOf (text : String) : Option (Alert × String) :=
  let kt : String × Option String :=
    match splitOnce text ' ' with
    | some (k, t) => (k, some t)
    | none => (text, none)
  if kt.1 = "[!NOTE]" then some (.note, kt.2.getD "Note")
  else if kt.1 = "[!TIP]" then some (.tip, kt.2.getD "Tip")
  else if kt.1 = "[!IMPORTANT]" then some (.important, kt.2.getD "Important")
  else if kt.1 = "[!WARNING]" then some (.warning, kt.2.getD "Warning")
  else if kt.1 = "[!CAUTION]" then some (.caution, kt.2.getD "Caution")
  else none

/-- The `<video>` raw-HTML literal (src/html/jsdoc.rs:362). -/
def videoHtml (url : String) : String :=
  "<video src=\"" ++ url ++ "\" controls></video>"

/-- The replacement node built for a matching alert blockquote
(src/html/jsdoc.rs:289-353): the marker text node is dropped, the rest of
its paragraph and the rest of the blockquote are gathered into a fresh
paragraph under a fresh document, re-serialized by the external HTML
emitter `render`, and wrapped in the alert `div` with the per-kind icon
asset `icons` and the title. -/
def alertReplacementNode (icons : Alert → String) (render : Node → String)
    (alert : Alert) (title : String) (paragraphChild node : Node) : Node :=
  let body := Node.mk .document
    (.cons (Node.mk .paragraph (paragraphChild.children.tail.append node.children.tail)) .nil)
  Node.mk
    (.htmlBlock 6
      ("<div class=\"alert alert-" ++ alertKindSlug alert ++ "\"><div>" ++
        (icons alert ++ title) ++ "</div><div>" ++ render body ++ "</div></div>"))
    .nil

/-- `match_node_value` (src/html/jsdoc.rs:249-377): `some r` means the node
is detached and `r` inserted in its place; `none` means no replacement. -/
def match_node_value (icons : Alert → String) (render : Node → String)
    (node : Node) : Option Node :=
  match node.value with
  | .blockQuote =>
    match node.children.head? with
    | some paragraphChild =>
      match paragraphChild.value with
      | .paragraph =>
        match paragraphChild.children.head? with
        | some textChild =>
          match textChild.value with
          | .text txt =>
            match alertOf txt with
            | some at_ => some (alertReplacementNode icons render at_.1 at_.2 paragraphChild node)
            | none => none
          | _ => none
        | none => none
      | _ => none
    | none => none
  | .link url _ =>
    if strEndsWith url ".mov" || strEndsWith url ".mp4" then
      some (Node.mk (.htmlBlock 6 (videoHtml url)) .nil)
    else none
  | _ => none

/-! `walk_node` (src/html/jsdoc.rs:379-389): pre-order rewrite; a replaced
child's fresh subtree is not re-scanned, an untouched child is recursed
into. -/
mutual
def walk_node (icons : Alert → String) (render : Node → String) : Node → Node
  | .mk v cs => .mk v (walk_node_list icons render cs)
def walk_node_list (icons : Alert → String) (render : Node → String) : NodeList → NodeList
  | .nil => .nil
  | .cons c cs =>
    .cons
      (match match_node_value icons render c with
       | some r => r
       | none => walk_node icons render c)
      (walk_node_list icons render cs)
end

/-! ## Title extractor (`walk_node_title`, src/html/jsdoc.rs:391-418) -/

/-- The inline-ish allow-list of `walk_node_title`, as the source matches it. -/
def allowTitle : NodeValue → Bool
  | .document => true
  | .paragraph => true
  | .heading _ => true
  | .text _ => true
  | .code _ => true
  | .htmlInline _ => true
  | .emph => true
  | .strong => true
  | .strikethrough => true
  | .superscript => true
  | .link _ _ => true
  | .math _ => true
  | .escaped => true
  | .wikiLink _ => true
  | .underline => true
  | .softBreak => true
  | _ => false

/-! `walk_node_title`: keep an allow-listed child and recurse into it,
detach everything else. -/
mutual
def walk_node_title : Node → Node
  | .mk v cs => .mk v (walk_title_list cs)
def walk_title_list : NodeList → NodeList
  | .nil => .nil
  | .cons c cs =>
    if allowTitle c.value then .cons (walk_node_title c) (walk_title_list cs)
    else walk_title_list cs
end

/-- The allow-list exactly as the claim enumerates it. -/
def titleAllowedKinds : List NodeKind :=
  [.document, .paragraph, .heading, .text, .code, .htmlInline, .emph, .strong,
   .strikethrough, .superscript, .link, .math, .escaped, .wikiLink, .underline,
   .softBreak]

/-! The title pruning exactly as the claim words it: destructively prune
every node whose kind is outside the fixed inline-ish allow-list. -/
mutual
def specTitlePrune : Node → Node
  | .mk v cs => .mk v (specTitlePruneList cs)
def specTitlePruneList : NodeList → NodeList
  | .nil => .nil
  | .cons c cs =>
    if c.value.kind ∈ titleAllowedKinds then .cons (specTitlePrune c) (specTitlePruneList cs)
    else specTitlePruneList cs
end

/-! ## Plain-text extractor (`strip` / `collect_text`, src/html/jsdoc.rs:435-473) -/

/-! `collect_text`: literal text and inline-code content verbatim, one space
per line break or soft break, recursion everywhere else. -/
mutual
def collect_text : Node → String
  | .mk (.text s) _ => s
  | .mk (.code s) _ => s
  | .mk .lineBreak _ => " "
  | .mk .softBreak _ => " "
  | .mk _ cs => collect_text_list cs
def collect_text_list : NodeList → String
  | .nil => ""
  | .cons c cs => collect_text c ++ collect_text_list cs
end

/-- An atom of the flattened output, for the spec-side characterization:
a literal text run, an inline-code literal, or a break. -/
inductive TextPiece where
  | textRun : String → TextPiece
  | codeRun : String → TextPiece
  | brk : TextPiece
deriving DecidableEq

def pieceToString : TextPiece → String
  | .textRun s => s
  | .codeRun s => s
  | .brk => " "

def renderPieces : List TextPiece → String
  | [] => ""
  | p :: ps => pieceToString p ++ renderPieces ps

/-! The flattening exactly as the claim words it: in-order literal text runs
and inline-code literal content, one break atom per line/soft break, all
other structure discarded. -/
mutual
def textPieces : Node → List TextPiece
  | .mk (.text s) _ => [.textRun s]
  | .mk (.code s) _ => [.codeRun s]
  | .mk .lineBreak _ => [.brk]
  | .mk .softBreak _ => [.brk]
  | .mk _ cs => textPiecesList cs
def textPiecesList : NodeList → List TextPiece
  | .nil => []
  | .cons c cs => textPieces c ++ textPiecesList cs
end

/-! ## `markdown_to_html` (src/html/jsdoc.rs:475-539) and the scoped state -/

/-- `crate::html::comrak_adapters::URLRewriter`:
`(current module, raw url) -> rewritten url`. -/
def URLRewriter : Type :=
  Option ShortPath → String → String

/-- The pair of thread-local cells `CURRENT_FILE` and `URL_REWRITER`
(src/html/jsdoc.rs:95-98), made explicit.  Each holds `none` outside the
sanitization bracket and `some` of the current render's value inside it. -/
structure MdState where
  currentFile : Option (Option ShortPath)
  urlRewriter : Option (Option URLRewriter)

/-- The ambient context of one `markdown_to_html` call: the `RenderContext`
slice used by `parse_links`, the optional URL rewriter of the generate
context, and the external collaborators — the comrak parser, the comrak
HTML emitter (`render_node`), the ammonia `clean` pass (which reads the
scoped state through its URL evaluator, hence the explicit `MdState`
argument), and the per-kind svg icon assets included from disk. -/
structure MdCtx where
  rctx : RenderCtx
  url_rewriter : Option URLRewriter
  parse : String → Node
  renderNode : Node → String
  clean : MdState → String → String
  icons : Alert → String

/-- Replace the sanitizer, keeping everything else (used to state that the
sanitizer is only ever consulted at the bracketed scoped state). -/
def MdCtx.withClean (g : MdCtx) (c : MdState → String → String) : MdCtx :=
  ⟨g.rctx, g.url_rewriter, g.parse, g.renderNode, c, g.icons⟩

structure MarkdownToHTMLOptions where
  title_only : Bool
  no_toc : Bool

/-- `markdown_to_html` (src/html/jsdoc.rs:475-539).  Returns the rendered
fragment (or `None` from the title-only early return) together with the
final scoped state.  The original sets both cells, runs `AMMONIA.clean`,
and resets both cells to `None`; the early return happens before the cells
are touched. -/
def markdown_to_html (g : MdCtx) (md : String)
    (render_options : MarkdownToHTMLOptions) (s : MdState) :
    Option String × MdState :=
  let md' := parse_links md g.rctx
  let class_name := if render_options.title_only then "markdown_summary" else "markdown"
  let root := g.parse md'
  let htmlOpt : Option String :=
    if render_options.title_only then
      match (walk_node_title root).children.head? with
      | some child => some (g.renderNode child)
      | none => none
    else
      some (g.renderNode (walk_node g.icons g.renderNode root))
  match htmlOpt with
  | none => (none, s)
  | some html =>
    let s1 : MdState := ⟨some g.rctx.current_resolve.getFile, some g.url_rewriter⟩
    ((some ("<div class=\"" ++ class_name ++ "\">" ++ g.clean s1 html ++ "</div>")),
     ⟨none, none⟩)

/-- `render_markdown` (src/html/jsdoc.rs:541-555): full render, empty string
fallback.  Started at the resting scoped state. -/
def render_markdown (g : MdCtx) (md : String) (no_toc : Bool) : String :=
  ((markdown_to_html g md ⟨false, no_toc⟩ ⟨none, none⟩).1).getD ""

/-- `strip` (src/html/jsdoc.rs:435-473): resolve links, parse, run the tree
rewriter, and flatten to plain text. -/
def strip (g : MdCtx) (md : String) : String :=
  let md' := parse_links md g.rctx
  collect_text (walk_node g.icons g.renderNode (g.parse md'))

/-! ## `ExampleCtx` (src/html/jsdoc.rs:607-641) -/

/-- Modelled from the spec: `name_to_id` is a utility outside the given
sources that derives an anchor id from a kind and a name. -/
def name_to_id (kind name : String) : String :=
  kind ++ "_" ++ name

structure AnchorCtx where
  id : String
deriving DecidableEq

structure ExampleCtx where
  anchor : AnchorCtx
  id : String
  title : String
  markdown_title : String
  markdown_body : String

/-- `ExampleCtx::new` (src/html/jsdoc.rs:619-641): split the example text
into title and body, default the title, and render the two halves
independently (title with the TOC-feeding full pipeline, body with the
TOC-suppressed full pipeline). -/
def ExampleCtx.new (g : MdCtx) (ex : String) (i : Nat) : ExampleCtx :=
  let id := name_to_id "example" (toString i)
  let tb := split_markdown_title ex
  let title :=
    match tb.1 with
    | some t => t
    | none => "Example " ++ toString (i + 1)
  ⟨⟨id⟩, id, title,
   render_markdown g title false,
   render_markdown g (tb.2.getD "") true⟩

/-! ## `render_variable` (src/html/symbols/variable.rs:6-28) -/

structure DocEntryCtx where
  id : String
  name : String
  content : String
  js_doc : Option String

inductive SectionContentCtx where
  | docEntry : List DocEntryCtx → SectionContentCtx
  | exampleContent : List ExampleCtx → SectionContentCtx

structure SectionCtx where
  title : String
  content : SectionContentCtx

/-- `render_variable`: panics (here `none`) when the node carries no
`variable_def`; returns no sections without a `ts_type`, otherwise one
"Type" section holding a single doc entry rendering that type through the
external `render_type_def`. -/
def render_variable (render_type_def : TsType → String) (doc_node : DocNode) :
    Option (List SectionCtx) :=
  match doc_node.variable_def with
  | none => none
  | some variableDef =>
    match variableDef.ts_type with
    | none => some []
    | some t =>
      some [⟨"Type",
        .docEntry [⟨name_to_id "variable" doc_node.name, "", render_type_def t, none⟩]⟩]



/-! ## The five alert markers with their kinds and default titles, as the
claims enumerate them -/

def alertMarkerSpec : List (String × Alert × String) :=
  [("[!NOTE]", .note, "Note"), ("[!TIP]", .tip, "Tip"),
   ("[!IMPORTANT]", .important, "Important"), ("[!WARNING]", .warning, "Warning"),
   ("[!CAUTION]", .caution, "Caution")]

/-! ## Concrete instances used to evaluate the development on real inputs -/

/-- The render context of the source's unit tests with an empty graph:
no modules, no symbol hrefs, no external resolution. -/
def emptyRenderCtx : RenderCtx :=
  ⟨[], .allSymbols, fun _ _ => "", fun _ => none, fun _ _ => none⟩

/-- The `b.ts` module of the source's `parse_links` test. -/
def bShortPath : ShortPath :=
  ⟨"b.ts", "b.ts", false⟩

/-- The `baz` interface of the source's `parse_links` test. -/
def bazNode : DocNode :=
  ⟨"baz", "baz", none⟩

/-- A one-module graph with a relative path resolver, mirroring the source's
`parse_links` test setup. -/
def moduleRenderCtx : RenderCtx :=
  ⟨[(bShortPath, [bazNode])], .allSymbols,
   fun _ t =>
     match t with
     | .symbol f s => "../" ++ f.path ++ "/~/" ++ s ++ ".html"
     | .file f => "../" ++ f.path ++ "/index.html"
     | _ => "../index.html",
   fun _ => none, fun _ _ => none⟩

/-- The comrak parse of `"**bold** and a\nline"` (a paragraph holding a
strong run, plain text, a soft break, and more text). -/
def boldSampleTree : Node :=
  Node.mk .document (.cons
    (Node.mk .paragraph
      (.cons (Node.mk .strong (.cons (Node.mk (.text "bold") .nil) .nil))
        (.cons (Node.mk (.text " and a") .nil)
          (.cons (Node.mk .softBreak .nil)
            (.cons (Node.mk (.text "line") .nil) .nil)))))
    .nil)

/-- A tiny one-paragraph parse result for exercising `markdown_to_html`. -/
def hiTree : Node :=
  Node.mk .document
    (.cons (Node.mk .paragraph (.cons (Node.mk (.text "hi") .nil) .nil)) .nil)

/-- A concrete `MdCtx`: trivial external collaborators over `hiTree`. -/
def exampleMdCtx : MdCtx :=
  ⟨emptyRenderCtx, none, fun _ => hiTree, fun _ => "<p>hi</p>", fun _ h => h,
   fun _ => "<svg/>"⟩

/-- A concrete `MdCtx` whose parser returns `boldSampleTree`. -/
def boldMdCtx : MdCtx :=
  ⟨emptyRenderCtx, none, fun _ => boldSampleTree, fun _ => "", fun _ h => h,
   fun _ => "<svg/>"⟩

/-! ## Helper lemmas -/

theorem strToList_append (a b : String) : (a ++ b).toList = a.toList ++ b.toList := rfl

theorem asString_toList (s : String) : s.toList.asString = s := rfl

theorem asString_data (s : String) : s.data.asString = s := rfl

theorem startsDotSlash_iff (l : List Char) :
    startsDotSlash l = true ↔
    (∃ t, l = '/' :: t) ∨ (∃ t, l = '.' :: '/' :: t) ∨
      (∃ t, l = '.' :: '.' :: '/' :: t) := by
  rcases l with _ | ⟨a, _ | ⟨b, _ | ⟨c, rest⟩⟩⟩
  · simp [startsDotSlash]
  · simp [startsDotSlash]
  · simp [startsDotSlash]
  · simp [startsDotSlash]
    tauto

theorem schemeTail_iff (l : List Char) :
    schemeTail l = true ↔
    ∃ pre d post, (∀ c ∈ pre, c.isAlpha = true) ∧ d.isWhitespace = false ∧
      l = pre ++ ':' :: d :: post := by
  induction l with
  | nil =>
    simp only [schemeTail]
    constructor
    · intro h; exact absurd h (by simp)
    · rintro ⟨pre, d, post, -, -, h⟩
      exact absurd h (by simp)
  | cons a l ih =>
    rcases l with _ | ⟨b, rest⟩
    · simp only [schemeTail]
      constructor
      · intro h; exact absurd h (by simp)
      · rintro ⟨pre, d, post, -, -, h⟩
        rcases pre with _ | ⟨p, _ | ⟨q, pre⟩⟩ <;> simp_all
    · simp only [schemeTail]
      by_cases ha : a = ':'
      · subst ha
        simp only [if_pos rfl]
        constructor
        · intro h
          exact ⟨[], b, rest, by simp, by simpa using h, rfl⟩
        · rintro ⟨pre, d, post, hpre, hd, h⟩
          rcases pre with _ | ⟨p, pre⟩
          · simp only [List.nil_append, List.cons.injEq] at h
            obtain ⟨-, hb, -⟩ := h
            subst hb; simpa using hd
          · simp only [List.cons_append, List.cons.injEq] at h
            have hp : p.isAlpha = true := hpre p (by simp)
            rw [← h.1] at hp
            exact absurd hp (by decide)
      · rw [if_neg ha]
        constructor
        · intro h
          rw [Bool.and_eq_true] at h
          obtain ⟨pre, d, post, hpre, hd, he⟩ := ih.mp h.2
          refine ⟨a :: pre, d, post, ?_, hd, by simp [he]⟩
          intro c hc
          rcases List.mem_cons.mp hc with rfl | hc
          · exact h.1
          · exact hpre c hc
        · rintro ⟨pre, d, post, hpre, hd, h⟩
          rcases pre with _ | ⟨p, pre⟩
          · simp only [List.nil_append, List.cons.injEq] at h
            exact absurd h.1 ha
          · simp only [List.cons_append, List.cons.injEq] at h
            obtain ⟨rfl, h2⟩ := h
            rw [Bool.and_eq_true]
            refine ⟨hpre a (by simp), ih.mpr ?_⟩
            exact ⟨pre, d, post, fun c hc => hpre c (by simp [hc]), hd, h2⟩

theorem schemeMatch_iff (l : List Char) :
    schemeMatch l = true ↔
    ∃ pre d post, pre ≠ [] ∧ (∀ c ∈ pre, c.isAlpha = true) ∧
      d.isWhitespace = false ∧ l = pre ++ ':' :: d :: post := by
  rcases l with _ | ⟨c, rest⟩
  · simp only [schemeMatch]
    constructor
    · intro h; exact absurd h (by simp)
    · rintro ⟨pre, d, post, hne, -, -, h⟩
      rcases pre with _ | ⟨p, pre⟩
      · exact (hne rfl).elim
      · exact absurd h (by simp)
  · simp only [schemeMatch, Bool.and_eq_true, schemeTail_iff]
    constructor
    · rintro ⟨hc, pre, d, post, hpre, hd, he⟩
      refine ⟨c :: pre, d, post, by simp, ?_, hd, by simp [he]⟩
      intro x hx
      rcases List.mem_cons.mp hx with rfl | hx
      · exact hc
      · exact hpre x hx
    · rintro ⟨pre, d, post, hne, hpre, hd, he⟩
      rcases pre with _ | ⟨p, pre⟩
      · exact (hne rfl).elim
      · simp only [List.cons_append, List.cons.injEq] at he
        obtain ⟨rfl, h2⟩ := he
        exact ⟨hpre c (by simp), pre, d, post,
          fun x hx => hpre x (by simp [hx]), hd, h2⟩

theorem linkReMatch_iff_linkable (s : String) :
    linkReMatch s = true ↔ LinkableSpec s := by
  simp only [linkReMatch, Bool.or_eq_true, startsDotSlash_iff, schemeMatch_iff,
    LinkableSpec, or_assoc]

theorem splitOnceCs_eq_none {sep : Char} : ∀ {l : List Char}, sep ∉ l →
    splitOnceCs sep l = none := by
  intro l
  induction l with
  | nil => intro; rfl
  | cons x xs ih =>
    intro h
    rw [List.mem_cons, not_or] at h
    simp [splitOnceCs, Ne.symm h.1, ih h.2]

theorem splitOnceCs_append {sep : Char} : ∀ {l t : List Char}, sep ∉ l →
    splitOnceCs sep (l ++ sep :: t) = some (l, t) := by
  intro l t
  induction l with
  | nil => intro; simp [splitOnceCs]
  | cons x xs ih =>
    intro h
    rw [List.mem_cons, not_or] at h
    simp [splitOnceCs, Ne.symm h.1, ih h.2]

theorem firstIdxOf_append {x : Char} : ∀ {l t : List Char}, (∀ c ∈ l, c ≠ x) →
    firstIdxOf x (l ++ x :: t) = some l.length := by
  intro l t
  induction l with
  | nil => intro; simp [firstIdxOf]
  | cons c cs ih =>
    intro h
    have hc : c ≠ x := h c (by simp)
    simp [firstIdxOf, hc, ih (fun d hd => h d (by simp [hd]))]

theorem splitTarget_pipe (l t : String) (h : '|' ∉ l.toList) :
    splitTarget (l ++ "|" ++ t) = (strTrim l, strTrim t) := by
  have h1 : (l ++ "|" ++ t).toList = l.toList ++ '|' :: t.toList := by
    simp [strToList_append, List.append_assoc]
  unfold splitTarget splitOnce
  rw [h1, splitOnceCs_append h]
  simp [asString_toList, asString_data]

theorem splitTarget_space (l t : String) (hl : '|' ∉ l.toList) (ht : '|' ∉ t.toList)
    (hs : ' ' ∉ l.toList) :
    splitTarget (l ++ " " ++ t) = (strTrim l, strTrim t) := by
  have h1 : (l ++ " " ++ t).toList = l.toList ++ ' ' :: t.toList := by
    simp [strToList_append, List.append_assoc]
  have h2 : '|' ∉ (l ++ " " ++ t).toList := by
    rw [h1]
    simp only [List.mem_append, List.mem_cons]
    rintro (h | h | h)
    · exact hl h
    · exact absurd h.symm (by decide)
    · exact ht h
  unfold splitTarget splitOnce
  rw [h1] at h2 ⊢
  rw [splitOnceCs_eq_none h2, splitOnceCs_append hs]
  simp [asString_toList, asString_data]

theorem splitTarget_none (v : String) (h1 : '|' ∉ v.toList) (h2 : ' ' ∉ v.toList) :
    splitTarget v = (v, "") := by
  unfold splitTarget splitOnce
  rw [splitOnceCs_eq_none h1, splitOnceCs_eq_none h2]
  rfl

theorem parseLinksAux_nil (ctx : RenderCtx) : ∀ fuel, parseLinksAux ctx fuel [] = [] := by
  intro fuel
  cases fuel <;> rfl

theorem tryMatchLink_single (code : Bool) (h0 : Char) (vt : List Char)
    (hh : h0.isWhitespace = false)
    (hnb : ∀ c ∈ h0 :: vt, c ≠ '\x7d') :
    tryMatchLink ('@' :: 'l' :: 'i' :: 'n' :: 'k' ::
        ((if code then ['c', 'o', 'd', 'e'] else []) ++ ' ' :: (h0 :: vt) ++ ['\x7d']))
      = some (code, (h0 :: vt).asString, []) := by
  have hf : firstIdxOf '\x7d' (h0 :: (vt ++ ['\x7d'])) = some (vt.length + 1) := by
    have h1 := firstIdxOf_append (t := ([] : List Char)) hnb
    simpa using h1
  have htake : (h0 :: (vt ++ ['\x7d'])).take (vt.length + 1) = h0 :: vt := by
    have h1 : ((h0 :: vt) ++ ['\x7d']).take (vt.length + 1) = h0 :: vt :=
      List.take_left' (by simp)
    simp only [List.cons_append] at h1
    exact h1
  have hdrop : (h0 :: (vt ++ ['\x7d'])).drop (vt.length + 2) = [] := by
    apply List.drop_eq_nil_of_le
    simp
  have htw : List.takeWhile Char.isWhitespace (h0 :: (vt ++ ['\x7d'])) = [] :=
    List.takeWhile_cons_of_neg (by simp [hh])
  cases code <;>
    simp [tryMatchLink, dropPfx, htw, hf, htake, hdrop]

theorem parseLinksAux_brace (ctx : RenderCtx) (fuel : Nat) (rest : List Char) :
    parseLinksAux ctx (fuel + 1) ('\x7b' :: rest) =
      match tryMatchLink rest with
      | some (code, value, rest') =>
        (jsdocLinkReplacement ctx code value).toList ++ parseLinksAux ctx fuel rest'
      | none => '\x7b' :: parseLinksAux ctx fuel rest := rfl

theorem parse_links_single_occurrence (ctx : RenderCtx) (code : Bool) (md value : String)
    (h0 : Char) (vt : List Char) (hv : value.toList = h0 :: vt)
    (hh : h0.isWhitespace = false) (hnb : ∀ c ∈ value.toList, c ≠ '\x7d')
    (hmd : md.toList = '\x7b' :: '@' :: 'l' :: 'i' :: 'n' :: 'k' ::
      ((if code then ['c', 'o', 'd', 'e'] else []) ++ ' ' :: value.toList ++ ['\x7d'])) :
    parse_links md ctx = jsdocLinkReplacement ctx code value := by
  rw [hv] at hnb
  unfold parse_links
  rw [hmd, hv, List.length_cons, parseLinksAux_brace,
    tryMatchLink_single code h0 vt hh hnb]
  simp only [parseLinksAux_nil, List.append_nil]
  rw [← hv, asString_toList, asString_toList]

theorem splitsAt_eq_nil {sep : Char} : ∀ {l : List Char}, sep ∉ l →
    splitsAt sep l = [] := by
  intro l
  induction l with
  | nil => intro; rfl
  | cons x xs ih =>
    intro h
    rw [List.mem_cons, not_or] at h
    simp [splitsAt, Ne.symm h.1, ih h.2]

theorem splitsAt_unique {sep : Char} : ∀ {l : List Char} (t : List Char), sep ∉ l → sep ∉ t →
    splitsAt sep (l ++ sep :: t) = [(l, t)] := by
  intro l
  induction l with
  | nil =>
    intro t _ ht
    simp [splitsAt, splitsAt_eq_nil ht]
  | cons x xs ih =>
    intro t h ht
    rw [List.mem_cons, not_or] at h
    simp [splitsAt, Ne.symm h.1, ih t h.2 ht]

theorem moduleLinkMatch_noSym (m : String) (hne : m.toList ≠ [])
    (hm : ∀ c ∈ m.toList, c.isWhitespace = false ∧ c ≠ ']') :
    moduleLinkMatch ("[" ++ m ++ "]") = some (m, none) := by
  have hlist : ("[" ++ m ++ "]").toList = '[' :: (m.toList ++ ']' :: []) := by
    simp [strToList_append, List.append_assoc]
  have hnb : ']' ∉ m.toList := fun hc => (hm _ hc).2 rfl
  unfold moduleLinkMatch
  rw [hlist]
  simp only [splitsAt_unique [] hnb (by simp), List.reverse_singleton, List.findSome?]
  have h1 : (!m.toList.isEmpty && m.toList.all fun c => !c.isWhitespace) = true := by
    simp only [Bool.and_eq_true, Bool.not_eq_true']
    refine ⟨by simpa using hne, ?_⟩
    rw [List.all_eq_true]
    intro c hc
    simp [(hm c hc).1]
  rw [h1]
  simp [moduleTailMatch, asString_toList, asString_data]

theorem moduleLinkMatch_sym (m sym : String) (hmne : m.toList ≠ []) (hsne : sym.toList ≠ [])
    (hm : ∀ c ∈ m.toList, c.isWhitespace = false ∧ c ≠ ']')
    (hs : ∀ c ∈ sym.toList, c.isWhitespace = false ∧ c ≠ ']') :
    moduleLinkMatch ("[" ++ m ++ "]." ++ sym) = some (m, some sym) := by
  have hlist : ("[" ++ m ++ "]." ++ sym).toList =
      '[' :: (m.toList ++ ']' :: ('.' :: sym.toList)) := by
    simp [strToList_append, List.append_assoc]
  have hnb : ']' ∉ m.toList := fun hc => (hm _ hc).2 rfl
  have hnt : ']' ∉ '.' :: sym.toList := by
    rw [List.mem_cons, not_or]
    exact ⟨by decide, fun hc => (hs _ hc).2 rfl⟩
  unfold moduleLinkMatch
  rw [hlist]
  simp only [splitsAt_unique ('.' :: sym.toList) hnb hnt, List.reverse_singleton,
    List.findSome?]
  have h1 : (!m.toList.isEmpty && m.toList.all fun c => !c.isWhitespace) = true := by
    simp only [Bool.and_eq_true, Bool.not_eq_true']
    refine ⟨by simpa using hmne, ?_⟩
    rw [List.all_eq_true]
    intro c hc
    simp [(hm c hc).1]
  rw [h1]
  rcases he : sym.toList with _ | ⟨s0, st⟩
  · exact absurd he hsne
  · have h2 : (s0 :: st).all (fun c => !c.isWhitespace) = true := by
      rw [List.all_eq_true]
      intro c hc
      rw [← he] at hc
      simp [(hs c hc).1]
    simp only [moduleTailMatch, if_pos rfl, h2, if_true]
    rw [← he]
    simp [asString_toList, asString_data]


theorem eq_of_toList {s t : String} (h : s.toList = t.toList) : s = t := by
  cases s; cases t
  simp only [String.toList] at h
  rw [h]

theorem data_asString (l : List Char) : l.asString.data = l := rfl

theorem isEmpty_iff_s (s : String) : s.isEmpty = true ↔ s = "" := by
  constructor
  · intro hc
    cases s with
    | mk d =>
      cases d with
      | nil => rfl
      | cons a l =>
        simp [String.isEmpty, String.endPos, String.utf8ByteSize] at hc
        have h2 := congrArg String.Pos.byteIdx hc
        simp at h2
        have h3 := Char.utf8Size_pos a
        omega
  · rintro rfl; rfl

theorem isEmpty_false_s (s : String) (h : s ≠ "") : s.isEmpty = false := by
  rcases hb : s.isEmpty with _ | _
  · rfl
  · exact absurd ((isEmpty_iff_s s).mp hb) h

theorem empty_isEmpty : "".isEmpty = true := rfl

theorem append_ne_empty_s (a c : String) : a ++ " " ++ c ≠ "" := by
  intro h
  have h2 := congrArg String.toList h
  rw [strToList_append, strToList_append] at h2
  simp at h2

theorem bracket_toList (m : String) :
    ("[" ++ m ++ "]").toList = '[' :: (m.toList ++ ']' :: []) := by
  simp [strToList_append, List.append_assoc]

theorem bracket_sym_toList (m sym : String) :
    ("[" ++ m ++ "]." ++ sym).toList = '[' :: (m.toList ++ ']' :: ('.' :: sym.toList)) := by
  simp [strToList_append, List.append_assoc]

theorem not_mem_bracket {x : Char} {m : String} (hx1 : x ≠ '[') (hx2 : x ≠ ']')
    (hmem : x ∉ m.toList) : x ∉ ("[" ++ m ++ "]").toList := by
  rw [bracket_toList]
  intro hc
  simp only [List.mem_cons, List.mem_append, List.not_mem_nil, or_false] at hc
  rcases hc with hc | hc | hc
  · exact hx1 hc
  · exact hmem hc
  · exact hx2 hc

theorem not_mem_bracket_sym {x : Char} {m sym : String} (hx1 : x ≠ '[') (hx2 : x ≠ ']')
    (hx3 : x ≠ '.') (hmem : x ∉ m.toList) (hsym : x ∉ sym.toList) :
    x ∉ ("[" ++ m ++ "]." ++ sym).toList := by
  rw [bracket_sym_toList]
  intro hc
  simp only [List.mem_cons, List.mem_append] at hc
  rcases hc with hc | hc | hc | hc | hc
  · exact hx1 hc
  · exact hmem hc
  · exact hx2 hc
  · exact hx3 hc
  · exact hsym hc

theorem splitOnceCs_sound {sep : Char} : ∀ {l a b : List Char},
    splitOnceCs sep l = some (a, b) → l = a ++ sep :: b := by
  intro l
  induction l with
  | nil => intro a b h; simp [splitOnceCs] at h
  | cons x xs ih =>
    intro a b h
    by_cases hx : x = sep
    · subst hx
      simp [splitOnceCs] at h
      rw [h.1, ← h.2]
      simp
    · simp only [splitOnceCs, if_neg hx, Option.map_eq_some'] at h
      obtain ⟨⟨a', b'⟩, hs, hab⟩ := h
      rw [Prod.mk.injEq] at hab
      rw [← hab.1, ← hab.2]
      simp [ih hs]

theorem splitOnce_marker_title (mkr ttl : String) (hns : ' ' ∉ mkr.toList) :
    splitOnce (mkr ++ " " ++ ttl) ' ' = some (mkr, ttl) := by
  unfold splitOnce
  have hl : (mkr ++ " " ++ ttl).toList = mkr.toList ++ ' ' :: ttl.toList := by
    simp [strToList_append, List.append_assoc]
  rw [hl, splitOnceCs_append hns]
  simp [asString_toList, asString_data]

theorem alertOf_marker {marker : String} {alert : Alert} {dtitle : String}
    (h : (marker, alert, dtitle) ∈ alertMarkerSpec) :
    alertOf marker = some (alert, dtitle) := by
  simp only [alertMarkerSpec, List.mem_cons, List.not_mem_nil, or_false,
    Prod.mk.injEq] at h
  rcases h with ⟨rfl, rfl, rfl⟩ | ⟨rfl, rfl, rfl⟩ | ⟨rfl, rfl, rfl⟩ |
    ⟨rfl, rfl, rfl⟩ | ⟨rfl, rfl, rfl⟩ <;> rfl

theorem alertOf_marker_title {marker : String} {alert : Alert} {dtitle : String}
    (ttl : String) (h : (marker, alert, dtitle) ∈ alertMarkerSpec) :
    alertOf (marker ++ " " ++ ttl) = some (alert, ttl) := by
  simp only [alertMarkerSpec, List.mem_cons, List.not_mem_nil, or_false,
    Prod.mk.injEq] at h
  rcases h with ⟨rfl, rfl, rfl⟩ | ⟨rfl, rfl, rfl⟩ | ⟨rfl, rfl, rfl⟩ |
    ⟨rfl, rfl, rfl⟩ | ⟨rfl, rfl, rfl⟩ <;>
  · unfold alertOf
    rw [splitOnce_marker_title _ _ (by decide)]
    simp

theorem alertOf_none {txt : String}
    (h : ∀ p ∈ alertMarkerSpec, txt ≠ p.1 ∧ ∀ t, txt ≠ p.1 ++ " " ++ t) :
    alertOf txt = none := by
  have hs : ∀ (mkr ttl : String), splitOnce txt ' ' = some (mkr, ttl) →
      txt = mkr ++ " " ++ ttl := by
    intro mkr ttl hsp
    unfold splitOnce at hsp
    rw [Option.map_eq_some'] at hsp
    obtain ⟨⟨a, b⟩, hsp, hab⟩ := hsp
    rw [Prod.mk.injEq] at hab
    apply eq_of_toList
    rw [strToList_append, strToList_append]
    have hsnd := splitOnceCs_sound hsp
    rw [hsnd, ← hab.1, ← hab.2]
    simp [data_asString]
  unfold alertOf
  rcases hsp : splitOnce txt ' ' with _ | ⟨mkr, ttl⟩
  · have h1 := (h ("[!NOTE]", .note, "Note") (by simp [alertMarkerSpec])).1
    have h2 := (h ("[!TIP]", .tip, "Tip") (by simp [alertMarkerSpec])).1
    have h3 := (h ("[!IMPORTANT]", .important, "Important") (by simp [alertMarkerSpec])).1
    have h4 := (h ("[!WARNING]", .warning, "Warning") (by simp [alertMarkerSpec])).1
    have h5 := (h ("[!CAUTION]", .caution, "Caution") (by simp [alertMarkerSpec])).1
    simp [h1, h2, h3, h4, h5]
  · have htxt := hs mkr ttl hsp
    have h1 := (h ("[!NOTE]", .note, "Note") (by simp [alertMarkerSpec])).2 ttl
    have h2 := (h ("[!TIP]", .tip, "Tip") (by simp [alertMarkerSpec])).2 ttl
    have h3 := (h ("[!IMPORTANT]", .important, "Important") (by simp [alertMarkerSpec])).2 ttl
    have h4 := (h ("[!WARNING]", .warning, "Warning") (by simp [alertMarkerSpec])).2 ttl
    have h5 := (h ("[!CAUTION]", .caution, "Caution") (by simp [alertMarkerSpec])).2 ttl
    have hm1 : mkr ≠ "[!NOTE]" := fun hc => h1 (by rw [← hc]; exact htxt)
    have hm2 : mkr ≠ "[!TIP]" := fun hc => h2 (by rw [← hc]; exact htxt)
    have hm3 : mkr ≠ "[!IMPORTANT]" := fun hc => h3 (by rw [← hc]; exact htxt)
    have hm4 : mkr ≠ "[!WARNING]" := fun hc => h4 (by rw [← hc]; exact htxt)
    have hm5 : mkr ≠ "[!CAUTION]" := fun hc => h5 (by rw [← hc]; exact htxt)
    simp [hm1, hm2, hm3, hm4, hm5]

theorem walk_node_list_alert (icons : Alert → String) (render : Node → String)
    (txt : String) (alert : Alert) (title : String)
    (h : alertOf txt = some (alert, title)) (tcs prest rest sibs : NodeList) :
    walk_node_list icons render
      (.cons (Node.mk .blockQuote
        (.cons (Node.mk .paragraph (.cons (Node.mk (.text txt) tcs) prest)) rest)) sibs) =
    .cons (Node.mk (.htmlBlock 6
        ("<div class=\"alert alert-" ++ alertKindSlug alert ++ "\"><div>" ++
          (icons alert ++ title) ++ "</div><div>" ++
          render (Node.mk .document
            (.cons (Node.mk .paragraph (prest.append rest)) .nil)) ++
          "</div></div>")) .nil)
      (walk_node_list icons render sibs) := by
  simp [walk_node_list, match_node_value, Node.value, Node.children,
    NodeList.head?, NodeList.tail, h, alertReplacementNode]

theorem walk_node_list_no_alert (icons : Alert → String) (render : Node → String)
    (txt : String) (h : alertOf txt = none) (tcs prest rest sibs : NodeList) :
    walk_node_list icons render
      (.cons (Node.mk .blockQuote
        (.cons (Node.mk .paragraph (.cons (Node.mk (.text txt) tcs) prest)) rest)) sibs) =
    .cons (walk_node icons render (Node.mk .blockQuote
        (.cons (Node.mk .paragraph (.cons (Node.mk (.text txt) tcs) prest)) rest)))
      (walk_node_list icons render sibs) := by
  simp [walk_node_list, match_node_value, Node.value, Node.children,
    NodeList.head?, NodeList.tail, h]

theorem walk_node_list_video (icons : Alert → String) (render : Node → String)
    (url ttl : String) (h : (strEndsWith url ".mov" || strEndsWith url ".mp4") = true)
    (cs sibs : NodeList) :
    walk_node_list icons render (.cons (Node.mk (.link url ttl) cs) sibs) =
      .cons (Node.mk (.htmlBlock 6 ("<video src=\"" ++ url ++ "\" controls></video>")) .nil)
        (walk_node_list icons render sibs) := by
  simp [walk_node_list, match_node_value, Node.value, h, videoHtml]

theorem walk_node_list_link_keep (icons : Alert → String) (render : Node → String)
    (url ttl : String) (h1 : strEndsWith url ".mov" = false)
    (h2 : strEndsWith url ".mp4" = false) (cs sibs : NodeList) :
    walk_node_list icons render (.cons (Node.mk (.link url ttl) cs) sibs) =
      .cons (walk_node icons render (Node.mk (.link url ttl) cs))
        (walk_node_list icons render sibs) := by
  simp [walk_node_list, match_node_value, Node.value, h1, h2]

theorem allowTitle_iff_kind (v : NodeValue) :
    allowTitle v = true ↔ v.kind ∈ titleAllowedKinds := by
  cases v <;> simp [allowTitle, NodeValue.kind, titleAllowedKinds]

mutual
theorem walk_node_title_eq_spec : ∀ n : Node, walk_node_title n = specTitlePrune n
  | .mk v cs => by
    rw [walk_node_title, specTitlePrune, walk_title_list_eq_spec cs]
theorem walk_title_list_eq_spec : ∀ l : NodeList, walk_title_list l = specTitlePruneList l
  | .nil => rfl
  | .cons c cs => by
    rw [walk_title_list, specTitlePruneList]
    by_cases h : allowTitle c.value = true
    · rw [if_pos h, if_pos ((allowTitle_iff_kind c.value).mp h),
        walk_node_title_eq_spec c, walk_title_list_eq_spec cs]
    · rw [if_neg h, if_neg (fun hc => h ((allowTitle_iff_kind c.value).mpr hc)),
        walk_title_list_eq_spec cs]
end

theorem renderPieces_append (a b : List TextPiece) :
    renderPieces (a ++ b) = renderPieces a ++ renderPieces b := by
  induction a with
  | nil => simp [renderPieces]
  | cons p ps ih => simp [renderPieces, ih, String.append_assoc]

mutual
theorem collect_text_eq_pieces : ∀ n : Node, collect_text n = renderPieces (textPieces n)
  | .mk v cs => by
    cases v <;>
      simp [collect_text, textPieces, renderPieces, pieceToString,
        collect_text_list_eq_pieces cs, String.append_empty]
theorem collect_text_list_eq_pieces :
    ∀ l : NodeList, collect_text_list l = renderPieces (textPiecesList l)
  | .nil => rfl
  | .cons c cs => by
    rw [collect_text_list, textPiecesList, renderPieces_append,
      collect_text_eq_pieces c, collect_text_list_eq_pieces cs]
end

/-! ## The claims -/

/-- C1: for every well-formed `{@link TARGET}` / `{@linkcode TARGET}`
occurrence, `parse_links` replaces it with a markdown link `[TITLE](URL)`
exactly when the finally resolved link string is classified linkable — it
starts with `/`, `./`, `../`, or one or more ASCII letters followed by `:`
and a non-space character — and otherwise with just the title text, wrapped
in inline backticks when the `code` modifier was used; a matched occurrence
never survives as raw `{@link ...}` text: an input that is exactly one
well-formed occurrence is rewritten to exactly the replacement. -/
theorem parse_links_linkable_classification (ctx : RenderCtx) (code : Bool)
    (value : String) :
    (linkReMatch (resolvedTitleLink ctx value).2 = true ↔
      LinkableSpec (resolvedTitleLink ctx value).2) ∧
    (LinkableSpec (resolvedTitleLink ctx value).2 →
      jsdocLinkReplacement ctx code value =
        (if code then "[`" ++ (resolvedTitleLink ctx value).1 ++ "`](" ++
            (resolvedTitleLink ctx value).2 ++ ")"
         else "[" ++ (resolvedTitleLink ctx value).1 ++ "](" ++
            (resolvedTitleLink ctx value).2 ++ ")")) ∧
    (¬ LinkableSpec (resolvedTitleLink ctx value).2 →
      jsdocLinkReplacement ctx code value =
        (if code then "`" ++ (resolvedTitleLink ctx value).1 ++ "`"
         else (resolvedTitleLink ctx value).1)) ∧
    (∀ (md : String) (h0 : Char) (vt : List Char),
      value.toList = h0 :: vt → h0.isWhitespace = false →
      (∀ c ∈ value.toList, c ≠ '\x7d') →
      md.toList = '\x7b' :: '@' :: 'l' :: 'i' :: 'n' :: 'k' ::
        ((if code then ['c', 'o', 'd', 'e'] else []) ++ ' ' :: value.toList ++ ['\x7d']) →
      parse_links md ctx = jsdocLinkReplacement ctx code value) := by
  refine ⟨linkReMatch_iff_linkable _, ?_, ?_, ?_⟩
  · intro h
    simp only [jsdocLinkReplacement]
    rw [if_pos ((linkReMatch_iff_linkable _).mpr h)]
  · intro h
    simp only [jsdocLinkReplacement]
    rw [if_neg (fun hc => h ((linkReMatch_iff_linkable _).mp hc))]
  · intro md h0 vt hv hh hnb hmd
    exact parse_links_single_occurrence ctx code md value h0 vt hv hh hnb hmd

/-- Witness for C1 at the concrete input `{@link https://example.com}`. -/
theorem parse_links_linkable_classification_witness :
    parse_links "\x7b@link https://example.com\x7d" emptyRenderCtx =
      "[https://example.com](https://example.com)" := by
  have h := (parse_links_linkable_classification emptyRenderCtx false
      "https://example.com").2.2.2
    "\x7b@link https://example.com\x7d" 'h' "ttps://example.com".toList rfl (by decide)
    (by decide) (by decide)
  rw [h]
  decide

/-- C2: for a `{@link [MODULE]}` or `{@link [MODULE].SYMBOL}` occurrence
without explicit title, when MODULE is found in the documentation graph by
path or display name: with no SYMBOL the replacement links to the module's
own page titled with the module's display name; with a SYMBOL that exactly
matches some symbol's qualified name in that module, it links to that
symbol's page as computed by the path resolver from the current render
position, with default title `<module display name> <symbol>`. -/
theorem parse_links_module_reference
    (ctx : RenderCtx) (code : Bool) (m sym : String) (sp : ShortPath)
    (nodes : List DocNode) (hmne : m.toList ≠ [])
    (hm : ∀ c ∈ m.toList, c.isWhitespace = false ∧ c ≠ ']' ∧ c ≠ '|')
    (hfind : ctx.doc_nodes.find? (fun p => p.1.path == m || p.1.display_name == m)
      = some (sp, nodes)) :
    (sp.display_name ≠ "" →
      ctx.lookup_symbol_href (ctx.resolve_path ctx.current_resolve sp.as_resolve_kind) = none →
      linkReMatch (ctx.resolve_path ctx.current_resolve sp.as_resolve_kind) = true →
      jsdocLinkReplacement ctx code ("[" ++ m ++ "]") =
        (if code then "[`" ++ sp.display_name ++ "`](" ++
            ctx.resolve_path ctx.current_resolve sp.as_resolve_kind ++ ")"
         else "[" ++ sp.display_name ++ "](" ++
            ctx.resolve_path ctx.current_resolve sp.as_resolve_kind ++ ")"))
     ∧
    (sym.toList ≠ [] →
      (∀ c ∈ sym.toList, c.isWhitespace = false ∧ c ≠ ']' ∧ c ≠ '|') →
      nodes.any (fun n => n.qualified_name == sym) = true →
      ctx.lookup_symbol_href (ctx.resolve_path ctx.current_resolve (.symbol sp sym)) = none →
      linkReMatch (ctx.resolve_path ctx.current_resolve (.symbol sp sym)) = true →
      jsdocLinkReplacement ctx code ("[" ++ m ++ "]." ++ sym) =
        (if code then "[`" ++ (sp.display_name ++ " " ++ sym) ++ "`](" ++
            ctx.resolve_path ctx.current_resolve (.symbol sp sym) ++ ")"
         else "[" ++ (sp.display_name ++ " " ++ sym) ++ "](" ++
            ctx.resolve_path ctx.current_resolve (.symbol sp sym) ++ ")")) := by
  have hmp : '|' ∉ m.toList := fun hc => ((hm _ hc).2.2) rfl
  have hms : ' ' ∉ m.toList := fun hc => by
    have h1 := (hm _ hc).1
    simp at h1
  constructor
  · intro hdn hlook hre
    have hsplit := splitTarget_none _
      (not_mem_bracket (by decide) (by decide) hmp)
      (not_mem_bracket (by decide) (by decide) hms)
    have hmod := moduleLinkMatch_noSym m hmne (fun c hc => ⟨(hm c hc).1, (hm c hc).2.1⟩)
    simp only [jsdocLinkReplacement, resolvedTitleLink, hsplit]
    simp only [resolveModuleLink, hmod, hfind]
    simp only [symbolHrefStep, empty_isEmpty, if_true, hlook,
      isEmpty_false_s _ hdn, hre]
    simp
  · intro hsne hs hany hlook hre
    have hsp2 : '|' ∉ sym.toList := fun hc => ((hs _ hc).2.2) rfl
    have hss : ' ' ∉ sym.toList := fun hc => by
      have h1 := (hs _ hc).1
      simp at h1
    have hsplit := splitTarget_none _
      (not_mem_bracket_sym (by decide) (by decide) (by decide) hmp hsp2)
      (not_mem_bracket_sym (by decide) (by decide) (by decide) hms hss)
    have hmod := moduleLinkMatch_sym m sym hmne hsne
      (fun c hc => ⟨(hm c hc).1, (hm c hc).2.1⟩)
      (fun c hc => ⟨(hs c hc).1, (hs c hc).2.1⟩)
    simp only [jsdocLinkReplacement, resolvedTitleLink, hsplit]
    simp only [resolveModuleLink, hmod, hfind, hany]
    simp only [symbolHrefStep, empty_isEmpty, if_true, hlook,
      isEmpty_false_s _ (append_ne_empty_s _ _), hre]
    simp

/-- Witness for C2 at the test graph: `{@link [b.ts].baz}` resolves to the
symbol page of `baz` with title "b.ts baz". -/
theorem parse_links_module_reference_witness :
    jsdocLinkReplacement moduleRenderCtx false ("[" ++ "b.ts" ++ "]." ++ "baz") =
      "[b.ts baz](../b.ts/~/baz.html)" := by
  have h := (parse_links_module_reference moduleRenderCtx false "b.ts" "baz" bShortPath
    [bazNode] (by decide) (by decide) (by decide)).2 (by decide) (by decide) (by decide)
    (by decide) (by decide)
  exact h.trans (by decide)

/-- C3: during the tree rewrite, a blockquote whose first child is a
paragraph whose first text run begins with one of the five literal alert
markers (exactly the marker, or the marker followed by a space and a custom
title) is replaced by a raw-HTML block
`<div class="alert alert-KIND"><div>ICON+TITLE</div><div>BODY</div></div>`,
where TITLE is the custom title or the kind's default and BODY is the
re-serialization of the remaining blockquote content with the marker text
run stripped; a blockquote whose first text run matches no marker is kept
in place (only recursed into). -/
theorem alert_callout_rewrite (icons : Alert → String) (render : Node → String)
    (marker : String) (alert : Alert) (dtitle : String)
    (hmem : (marker, alert, dtitle) ∈ alertMarkerSpec) :
    (∀ tcs prest rest sibs : NodeList,
      walk_node_list icons render
        (.cons (Node.mk .blockQuote
          (.cons (Node.mk .paragraph (.cons (Node.mk (.text marker) tcs) prest)) rest)) sibs) =
      .cons (Node.mk (.htmlBlock 6
          ("<div class=\"alert alert-" ++ alertKindSlug alert ++ "\"><div>" ++
            (icons alert ++ dtitle) ++ "</div><div>" ++
            render (Node.mk .document
              (.cons (Node.mk .paragraph (prest.append rest)) .nil)) ++
            "</div></div>")) .nil)
        (walk_node_list icons render sibs)) ∧
    (∀ (ttl : String) (tcs prest rest sibs : NodeList),
      walk_node_list icons render
        (.cons (Node.mk .blockQuote
          (.cons (Node.mk .paragraph
            (.cons (Node.mk (.text (marker ++ " " ++ ttl)) tcs) prest)) rest)) sibs) =
      .cons (Node.mk (.htmlBlock 6
          ("<div class=\"alert alert-" ++ alertKindSlug alert ++ "\"><div>" ++
            (icons alert ++ ttl) ++ "</div><div>" ++
            render (Node.mk .document
              (.cons (Node.mk .paragraph (prest.append rest)) .nil)) ++
            "</div></div>")) .nil)
        (walk_node_list icons render sibs)) ∧
    (∀ txt : String,
      (∀ p ∈ alertMarkerSpec, txt ≠ p.1 ∧ ∀ t, txt ≠ p.1 ++ " " ++ t) →
      ∀ tcs prest rest sibs : NodeList,
      walk_node_list icons render
        (.cons (Node.mk .blockQuote
          (.cons (Node.mk .paragraph (.cons (Node.mk (.text txt) tcs) prest)) rest)) sibs) =
      .cons (walk_node icons render (Node.mk .blockQuote
          (.cons (Node.mk .paragraph (.cons (Node.mk (.text txt) tcs) prest)) rest)))
        (walk_node_list icons render sibs)) := by
  refine ⟨?_, ?_, ?_⟩
  · intro tcs prest rest sibs
    exact walk_node_list_alert icons render marker alert dtitle
      (alertOf_marker hmem) tcs prest rest sibs
  · intro ttl tcs prest rest sibs
    exact walk_node_list_alert icons render (marker ++ " " ++ ttl) alert ttl
      (alertOf_marker_title ttl hmem) tcs prest rest sibs
  · intro txt hno tcs prest rest sibs
    exact walk_node_list_no_alert icons render txt (alertOf_none hno) tcs prest rest sibs

/-- Witness for C3: a `[!NOTE]` blockquote with constant icon and serializer. -/
theorem alert_callout_rewrite_witness :
    walk_node_list (fun _ => "I") (fun _ => "B")
      (.cons (Node.mk .blockQuote (.cons (Node.mk .paragraph
        (.cons (Node.mk (.text "[!NOTE]") .nil) .nil)) .nil)) .nil) =
    .cons (Node.mk (.htmlBlock 6
      "<div class=\"alert alert-note\"><div>INote</div><div>B</div></div>") .nil) .nil := by
  have h := (alert_callout_rewrite (fun _ => "I") (fun _ => "B") "[!NOTE]" .note "Note"
    (by simp [alertMarkerSpec])).1 .nil .nil .nil .nil
  rw [h]
  rfl

/-- C4: the scoped state bracketing the sanitizer call: after a completed
`markdown_to_html` call started at the resting state both cells are `None`
(including the title-only early return, which leaves the state untouched);
whenever a fragment is produced both cells end at `None`; and the sanitizer
is only ever consulted at the state holding exactly the current render's
file and URL rewriter. -/
theorem markdown_to_html_scoped_state (g : MdCtx) (md : String)
    (opts : MarkdownToHTMLOptions) (s : MdState) :
    (s = ⟨none, none⟩ → (markdown_to_html g md opts s).2 = ⟨none, none⟩) ∧
    (∀ out, (markdown_to_html g md opts s).1 = some out →
      (markdown_to_html g md opts s).2 = ⟨none, none⟩) ∧
    (∀ c₁ c₂ : MdState → String → String,
      (∀ h, c₁ ⟨some g.rctx.current_resolve.getFile, some g.url_rewriter⟩ h =
            c₂ ⟨some g.rctx.current_resolve.getFile, some g.url_rewriter⟩ h) →
      markdown_to_html (g.withClean c₁) md opts s =
        markdown_to_html (g.withClean c₂) md opts s) := by
  refine ⟨?_, ?_, ?_⟩
  · intro hs
    subst hs
    unfold markdown_to_html
    rcases opts with ⟨tOnly, nt⟩
    cases tOnly
    · simp
    · rcases hh : (walk_node_title (g.parse (parse_links md g.rctx))).children.head? with
        _ | ⟨c⟩ <;> simp [hh]
  · intro out hout
    unfold markdown_to_html at hout ⊢
    rcases opts with ⟨tOnly, nt⟩
    cases tOnly
    · simp
    · rcases hh : (walk_node_title (g.parse (parse_links md g.rctx))).children.head? with
        _ | ⟨c⟩
      · simp [hh] at hout
      · simp [hh]
  · intro c₁ c₂ hc
    unfold markdown_to_html MdCtx.withClean
    rcases opts with ⟨tOnly, nt⟩
    cases tOnly
    · simp [hc _]
    · rcases hh : (walk_node_title (g.parse (parse_links md g.rctx))).children.head? with
        _ | ⟨c⟩ <;> simp [hh, hc _]

/-- Witness for C4: a full render from the resting state ends at the
resting state. -/
theorem markdown_to_html_scoped_state_witness :
    (markdown_to_html exampleMdCtx "hi" ⟨false, false⟩ ⟨none, none⟩).2 = ⟨none, none⟩ :=
  (markdown_to_html_scoped_state exampleMdCtx "hi" ⟨false, false⟩ ⟨none, none⟩).1 rfl

/-- C5: in title-only mode `markdown_to_html` prunes every node whose kind
is outside the fixed inline-ish allow-list (the sixteen kinds listed by the
title extractor), serializes only the first remaining top-level child
wrapped in a single `<div class="markdown_summary">` wrapper, and returns
`None` when no top-level child remains. -/
theorem markdown_to_html_title_only (g : MdCtx) (md : String) (no_toc : Bool)
    (s : MdState) :
    (∀ v : NodeValue, allowTitle v = true ↔ v.kind ∈ titleAllowedKinds) ∧
    (∀ n : Node, walk_node_title n = specTitlePrune n) ∧
    ((markdown_to_html g md ⟨true, no_toc⟩ s).1 =
      match (walk_node_title (g.parse (parse_links md g.rctx))).children.head? with
      | some child => some ("<div class=\"markdown_summary\">" ++
          g.clean ⟨some g.rctx.current_resolve.getFile, some g.url_rewriter⟩
            (g.renderNode child) ++ "</div>")
      | none => none) := by
  refine ⟨allowTitle_iff_kind, walk_node_title_eq_spec, ?_⟩
  unfold markdown_to_html
  rcases hh : (walk_node_title (g.parse (parse_links md g.rctx))).children.head? with
    _ | ⟨c⟩ <;> simp [hh]

/-- C6: during the tree rewrite, a link node whose URL ends in `.mov` or
`.mp4` is replaced in place by a raw-HTML block holding exactly
`<video src="URL" controls></video>`; the original link node is detached
and never also kept, and other links are kept in place. -/
theorem video_link_rewrite (icons : Alert → String) (render : Node → String)
    (url ttl : String) (cs sibs : NodeList) :
    (strEndsWith url ".mov" = true ∨ strEndsWith url ".mp4" = true →
      walk_node_list icons render (.cons (Node.mk (.link url ttl) cs) sibs) =
        .cons (Node.mk (.htmlBlock 6 ("<video src=\"" ++ url ++ "\" controls></video>")) .nil)
          (walk_node_list icons render sibs)) ∧
    (strEndsWith url ".mov" = false → strEndsWith url ".mp4" = false →
      walk_node_list icons render (.cons (Node.mk (.link url ttl) cs) sibs) =
        .cons (walk_node icons render (Node.mk (.link url ttl) cs))
          (walk_node_list icons render sibs)) := by
  constructor
  · intro h
    exact walk_node_list_video icons render url ttl
      (by rcases h with h | h <;> simp [h]) cs sibs
  · intro h1 h2
    exact walk_node_list_link_keep icons render url ttl h1 h2 cs sibs

/-- Witness for C6: an `.mp4` link becomes a video element. -/
theorem video_link_rewrite_witness :
    walk_node_list (fun _ => "I") (fun _ => "B")
      (.cons (Node.mk (.link "movie.mp4" "") .nil) .nil) =
      .cons (Node.mk (.htmlBlock 6 "<video src=\"movie.mp4\" controls></video>") .nil) .nil := by
  have h := (video_link_rewrite (fun _ => "I") (fun _ => "B") "movie.mp4" "" .nil .nil).1
    (Or.inr (by decide))
  rw [h]
  rfl

/-- C7: the TARGET of a `{@link ...}` / `{@linkcode ...}` occurrence is
split into link and title at the first `|`, else at the first space, with
both halves trimmed (no separator leaves the value as the link with no
explicit title); in particular `{@link https://example.com Example}` and
`{@link https://example.com|Example}` both produce
`[Example](https://example.com)`. -/
theorem link_target_split :
    (∀ l t : String, '|' ∉ l.toList →
      splitTarget (l ++ "|" ++ t) = (strTrim l, strTrim t)) ∧
    (∀ l t : String, '|' ∉ l.toList → '|' ∉ t.toList → ' ' ∉ l.toList →
      splitTarget (l ++ " " ++ t) = (strTrim l, strTrim t)) ∧
    (∀ v : String, '|' ∉ v.toList → ' ' ∉ v.toList → splitTarget v = (v, "")) ∧
    parse_links "\x7b@link https://example.com Example\x7d" emptyRenderCtx =
      "[Example](https://example.com)" ∧
    parse_links "\x7b@link https://example.com|Example\x7d" emptyRenderCtx =
      "[Example](https://example.com)" := by
  refine ⟨splitTarget_pipe, splitTarget_space, splitTarget_none, ?_, ?_⟩
  · decide
  · decide

/-- Witness for C7: concrete pipe and space splits. -/
theorem link_target_split_witness :
    splitTarget ("https://example.com" ++ "|" ++ "Example") =
      (strTrim "https://example.com", strTrim "Example") ∧
    splitTarget ("https://example.com" ++ " " ++ "Example") =
      (strTrim "https://example.com", strTrim "Example") ∧
    splitTarget "unknownSymbol" = ("unknownSymbol", "") := by
  refine ⟨?_, ?_, ?_⟩
  · exact link_target_split.1 "https://example.com" "Example" (by decide)
  · exact link_target_split.2.1 "https://example.com" "Example" (by decide) (by decide)
      (by decide)
  · exact link_target_split.2.2.1 "unknownSymbol" (by decide) (by decide)

/-- Counterexample for C8: on `"hello"` (no blank line, no fence marker) the
split point of the claim is the end of the string, so the claim predicts the
title `some "hello"`, but `split_markdown_title` returns the whole text as
the body with no title. -/
theorem split_markdown_title_claim_cex :
    split_markdown_title "hello" ≠ specClaimSplit "hello" ∧
    split_markdown_title "hello" = (none, some "hello") ∧
    specClaimSplit "hello" = (some "hello", some "") := by
  refine ⟨?_, ?_, ?_⟩ <;> decide

/-- C8 (amended): `split_markdown_title` splits at the earlier of the first
blank line and the first fenced-code-block marker; when both halves are
nonempty the text before the split point is the title and the text from the
split point on is the body; a text with nothing before the split point gets
no title; and a text whose remainder from the split point is empty (no
marker present) is returned whole as the body with no title.  `ExampleCtx`
renders the title through the full pipeline and the body independently
through the full pipeline with the table of contents suppressed. -/
theorem split_markdown_title_amended (md : String) :
    ((md.toList.take (min (specSplitIdx md) md.toList.length)).asString = "" →
      split_markdown_title md =
        (none, some (md.toList.drop (min (specSplitIdx md) md.toList.length)).asString)) ∧
    ((md.toList.take (min (specSplitIdx md) md.toList.length)).asString ≠ "" →
     (md.toList.drop (min (specSplitIdx md) md.toList.length)).asString = "" →
      split_markdown_title md =
        (none, some (md.toList.take (min (specSplitIdx md) md.toList.length)).asString)) ∧
    ((md.toList.take (min (specSplitIdx md) md.toList.length)).asString ≠ "" →
     (md.toList.drop (min (specSplitIdx md) md.toList.length)).asString ≠ "" →
      split_markdown_title md =
        (some (md.toList.take (min (specSplitIdx md) md.toList.length)).asString,
         some (md.toList.drop (min (specSplitIdx md) md.toList.length)).asString)) ∧
    (∀ (g : MdCtx) (ex : String) (i : Nat),
      (ExampleCtx.new g ex i).markdown_title =
        render_markdown g ((split_markdown_title ex).1.getD ("Example " ++ toString (i + 1)))
          false ∧
      (ExampleCtx.new g ex i).markdown_body =
        render_markdown g ((split_markdown_title ex).2.getD "") true) := by
  refine ⟨?_, ?_, ?_, ?_⟩
  · intro h1
    unfold split_markdown_title
    simp only [specSplitIdx] at h1
    rw [if_pos ((isEmpty_iff_s _).mpr h1)]
    rfl
  · intro h1 h2
    unfold split_markdown_title
    simp only [specSplitIdx] at h1 h2
    rw [if_neg (by rw [isEmpty_false_s _ h1]; simp), if_pos ((isEmpty_iff_s _).mpr h2)]
    rfl
  · intro h1 h2
    unfold split_markdown_title
    simp only [specSplitIdx] at h1 h2
    rw [if_neg (by rw [isEmpty_false_s _ h1]; simp),
      if_neg (by rw [isEmpty_false_s _ h2]; simp)]
    rfl
  · intro g ex i
    rcases h : (split_markdown_title ex).1 with _ | ⟨t⟩ <;>
      simp [ExampleCtx.new, h]

/-- Witness for C8 at `"t\n\nbody"`: the split point is the blank line. -/
theorem split_markdown_title_amended_witness :
    split_markdown_title "t\n\nbody" = (some "t", some "\n\nbody") := by
  have h := (split_markdown_title_amended "t\n\nbody").2.2.1 (by decide) (by decide)
  rw [h]
  decide

/-- C9: the plain-text extractor flattens a tree to exactly its literal text
runs and inline-code literal content in order, with a single space for each
line break and soft break and nothing else; on `"**bold** and a\nline"`
(soft break) `strip` yields exactly `"bold and a line"`. -/
theorem strip_plain_text :
    (∀ n : Node, collect_text n = renderPieces (textPieces n)) ∧
    (∀ g : MdCtx, g.parse "**bold** and a\nline" = boldSampleTree →
      strip g "**bold** and a\nline" = "bold and a line") := by
  refine ⟨collect_text_eq_pieces, ?_⟩
  intro g hp
  show collect_text (walk_node g.icons g.renderNode
    (g.parse (parse_links "**bold** and a\nline" g.rctx))) = "bold and a line"
  have hpl : parse_links "**bold** and a\nline" g.rctx = "**bold** and a\nline" := rfl
  rw [hpl, hp]
  rfl

/-- Witness for C9 with a parser returning the sample tree. -/
theorem strip_plain_text_witness :
    strip boldMdCtx "**bold** and a\nline" = "bold and a line" :=
  strip_plain_text.2 boldMdCtx rfl

/-- C10: for a documented variable node whose `variable_def` is present,
`render_variable` returns the empty section list when the variable carries
no `ts_type`, and otherwise exactly one section titled "Type" containing a
single doc entry rendering that type; a node without `variable_def` makes
`render_variable` fail (the original panics). -/
theorem render_variable_sections (render_type_def : TsType → String) (node : DocNode)
    (vd : VariableDef) (h : node.variable_def = some vd) :
    (vd.ts_type = none → render_variable render_type_def node = some []) ∧
    (∀ t, vd.ts_type = some t →
      render_variable render_type_def node =
        some [⟨"Type", .docEntry
          [⟨name_to_id "variable" node.name, "", render_type_def t, none⟩]⟩]) ∧
    (∀ node' : DocNode, node'.variable_def = none →
      render_variable render_type_def node' = none) := by
  refine ⟨?_, ?_, ?_⟩
  · intro ht
    simp only [render_variable, h, ht]
  · intro t ht
    simp only [render_variable, h, ht]
  · intro node' h'
    simp only [render_variable, h']

/-- Witness for C10 at a concrete typed variable node. -/
theorem render_variable_sections_witness :
    render_variable (fun t => t.repr) ⟨"x", "x", some ⟨some ⟨"number"⟩⟩⟩ =
      some [⟨"Type", .docEntry [⟨"variable_x", "", "number", none⟩]⟩] := by
  have h := (render_variable_sections (fun t => t.repr) ⟨"x", "x", some ⟨some ⟨"number"⟩⟩⟩
    ⟨some ⟨"number"⟩⟩ rfl).2.1 ⟨"number"⟩ rfl
  rw [h]
  rfl
